import Mathlib

/-!
Verification of the MP4-Tool conversion pipeline (src/MP4_Converter.py).

This file gives a shallow embedding of the stream-selection and conversion
pipeline of the tool: the probed-stream records, the track selector
(`get_english_audio_indices`, `get_video_codec`, `get_subtitle_streams`),
the command builder (`build_ffmpeg_cmd`), the per-file decision logic of
`convert_to_mp4`, the discovery step of `process_folder` (natural-sorted,
filtered directory listing), and the per-file finalize/cleanup state machine
of the orchestrator loop body.

Python dictionary accesses such as `s.get("tags", {}).get("language", "und")`
are modelled with `Option` fields; Python string helpers used by the code
(`lower`, `strip`, `endswith`, substring `in`) are modelled directly over the
character data of the string, matching the ASCII semantics the code relies on.
-/

/-- Model of the `tags` mapping of one probed stream: both entries may be
absent, exactly as a Python dict may lack the keys. -/
structure TagsRec where
  language : Option String
  title : Option String
deriving DecidableEq, Repr

/-- Model of one probed stream record as returned by the probe tool: the
`index` key is always present, the other keys may be absent (`Option`). -/
structure StreamRec where
  index : Nat
  codec_type : Option String
  codec_name : Option String
  tags : Option TagsRec
deriving DecidableEq, Repr

/-- Model of Python `str.lower()` as used on ASCII codec names. -/
def strLower (s : String) : String := String.mk (s.data.map Char.toLower)

/-- Model of Python `str.strip()`: drop whitespace from both ends. -/
def pyStrip (s : String) : String :=
  String.mk (((s.data.dropWhile Char.isWhitespace).reverse.dropWhile Char.isWhitespace).reverse)

/-- Model of Python `f.endswith(ext)`. -/
def pyEndsWith (f ext : String) : Bool := ext.data.isSuffixOf f.data

/-- Model of Python substring containment `w in f`. -/
def containsSubstr (w f : String) : Bool :=
  (List.range (f.data.length + 1)).any (fun i => w.data.isPrefixOf (f.data.drop i))

/-- Effective language of a stream, source line 178 and 195:
`s.get("tags", {}).get("language", "und")`. -/
def effLang (s : StreamRec) : String :=
  match s.tags with
  | none => "und"
  | some t => t.language.getD "und"

/-- Effective title of a stream, source line 196:
`s.get("tags", {}).get("title", "").strip()`. -/
def effTitle (s : StreamRec) : String :=
  match s.tags with
  | none => pyStrip ""
  | some t => pyStrip (t.title.getD "")

/-- Language filter of the audio comprehension guard, source line 178:
the stream qualifies iff its effective language is `eng` or `und`. -/
def audioQualifies (s : StreamRec) : Bool :=
  effLang s == "eng" || effLang s == "und"

/-- Source lines 174-179, `get_english_audio_indices`: the list comprehension
`[str(s["index"]) for s in streams if lang in ["eng", "und"]]`. -/
def get_english_audio_indices : List StreamRec → List String
  | [] => []
  | s :: rest =>
      if audioQualifies s then toString s.index :: get_english_audio_indices rest
      else get_english_audio_indices rest

/-- Source lines 181-186, `get_video_codec`: the loop returning
`s.get("codec_name", "").lower()` for the first stream whose
`codec_type` equals `"video"`, and `None` when the loop finds none. -/
def get_video_codec : List StreamRec → Option String
  | [] => none
  | s :: rest =>
      if s.codec_type == some "video" then some (strLower (s.codec_name.getD ""))
      else get_video_codec rest

/-- Source line 190: the subtitle codec allow-list. -/
def valid_codecs : List String := ["subrip", "ass", "ssa", "mov_text"]

/-- Codec part of the subtitle comprehension guard, source line 199:
`s.get("codec_name") in valid_codecs` (an absent codec name is `None`,
which is never in the set). -/
def subCodecOk (s : StreamRec) : Bool :=
  match s.codec_name with
  | some c => c ∈ valid_codecs
  | none => false

/-- Full subtitle comprehension guard, source line 199. -/
def subQualifies (s : StreamRec) : Bool :=
  subCodecOk s && (effLang s == "eng" || effLang s == "und")

/-- One entry of the list built by `get_subtitle_streams`: the dict of
source lines 192-197, with `index` stored as `str(s["index"])`. -/
structure SubRec where
  index : String
  codec : String
  language : String
  title : String
deriving DecidableEq, Repr

/-- Record constructor of the subtitle comprehension body, source lines 192-197. -/
def mkSubRec (s : StreamRec) : SubRec :=
  ⟨toString s.index, s.codec_name.getD "unknown", effLang s, effTitle s⟩

/-- Source lines 188-200, `get_subtitle_streams`: keep the records of streams
passing the guard, in probe order. -/
def get_subtitle_streams : List StreamRec → List SubRec
  | [] => []
  | s :: rest =>
      if subQualifies s then mkSubRec s :: get_subtitle_streams rest
      else get_subtitle_streams rest

/-- The two operating modes of the tool. -/
inductive Mode
  | encode
  | remux
deriving DecidableEq, Repr

/-- Source lines 221-225: the audio mapping loop of `build_ffmpeg_cmd`;
for each selected index the code extends the command with
`-map 0:idx` and then `-metadata:s:a:0 language=eng`. -/
def audio_map_args : List String → List String
  | [] => []
  | idx :: rest =>
      "-map" :: ("0:" ++ idx) :: "-metadata:s:a:0" :: "language=eng" :: audio_map_args rest

/-- Source lines 227-230: the subtitle mapping of `build_ffmpeg_cmd`; only the
first entry of the subtitle list is ever used. -/
def subtitle_args : List SubRec → List String
  | [] => []
  | sub :: _ =>
      ["-map", "0:" ++ sub.index, "-c:s", "mov_text", "-metadata:s:s:0",
       "language=" ++ sub.language]

/-- Source lines 204-219: the mode template of `build_ffmpeg_cmd`, including
the `hvc1` tag appended in remux mode when the detected codec is `hevc`. -/
def base_cmd (input_file : String) (mode : Mode) (video_codec : Option String) :
    List String :=
  match mode with
  | Mode.encode =>
      ["ffmpeg", "-i", input_file, "-y",
       "-c:v", "libx265", "-x265-params", "log-level=0", "-preset", "fast", "-crf", "23",
       "-c:a", "aac", "-b:a", "192k", "-channel_layout", "5.1",
       "-map", "0:v:0", "-map_metadata", "-1",
       "-tag:v", "hvc1", "-movflags", "+faststart", "-loglevel", "quiet"]
  | Mode.remux =>
      let cmd :=
        ["ffmpeg", "-i", input_file, "-y",
         "-c:v", "copy", "-c:a", "copy", "-map", "0:v:0", "-map_metadata", "-1",
         "-movflags", "+faststart", "-loglevel", "quiet"]
      if video_codec == some "hevc" then cmd ++ ["-tag:v", "hvc1"] else cmd

/-- Source lines 202-232, `build_ffmpeg_cmd`: mode template, then the audio
mapping loop, then the first-subtitle mapping, then the temp output path. -/
def build_ffmpeg_cmd (input_file temp_file : String) (mode : Mode)
    (video_codec : Option String) (audio_indices : List String)
    (subtitle_streams : List SubRec) : List String :=
  base_cmd input_file mode video_codec
    ++ audio_map_args audio_indices
    ++ subtitle_args subtitle_streams
    ++ [temp_file]

/-- Outcome of one `convert_to_mp4` call, source lines 234-272. -/
inductive ConvertOutcome
  | noAudio
  | av1Remux
  | engineFail
  | success
deriving DecidableEq, Repr

/-- Source lines 241-265: the decision logic of `convert_to_mp4` after the
probes succeed. The empty-audio check of line 245 precedes the AV1 remux
check of line 249; `engineOk` stands for the external engine exiting zero
(line 259; a non-zero exit raises and is caught at line 267, returning
`False`). -/
def convert_decision (mode : Mode) (audio_streams video_streams : List StreamRec)
    (engineOk : Bool) : ConvertOutcome :=
  let audio_indices := get_english_audio_indices audio_streams
  let video_codec := get_video_codec video_streams
  if audio_indices.isEmpty then ConvertOutcome.noAudio
  else if mode = Mode.remux ∧ video_codec = some "av1" then ConvertOutcome.av1Remux
  else if engineOk then ConvertOutcome.success
  else ConvertOutcome.engineFail

/-- Filesystem-visible operations completed during one orchestrator
iteration, in order of the source lines 326-350. -/
inductive Ev
  | mkOutputDir
  | statInput
  | statTemp
  | moveTemp
  | rmInput
  | rmTempCleanup
deriving DecidableEq, Repr

/-- Final state of one orchestrator iteration together with the trace of the
filesystem operations that completed, in execution order. -/
structure IterResult where
  inputExists : Bool
  tempExists : Bool
  outputExists : Bool
  moveCompleted : Bool
  events : List Ev
deriving DecidableEq, Repr

/-- Source lines 320-350: one iteration of the `process_folder` loop, from
just after the temp file was created (so the input and the temp file exist).
Each of the external calls of the success branch — `os.makedirs`,
the two `os.path.getsize` probes and `shutil.move` — may raise, which jumps
to the handler of line 343 that best-effort deletes the temp file.
`convert_to_mp4` itself catches all its exceptions and only returns a
boolean (`convertOk`). Removing an existing file with `os.remove` and the
prints are modelled as non-failing; a failed `shutil.move` leaves the temp
file in place. -/
def process_iteration (create_subfolders convertOk mkdirRaises statInputRaises
    statTempRaises moveRaises : Bool) : IterResult :=
  if convertOk then
    if create_subfolders && mkdirRaises then
      ⟨true, false, false, false, [Ev.rmTempCleanup]⟩
    else
      let evs0 := if create_subfolders then [Ev.mkOutputDir] else []
      if statInputRaises then
        ⟨true, false, false, false, evs0 ++ [Ev.rmTempCleanup]⟩
      else if statTempRaises then
        ⟨true, false, false, false, evs0 ++ [Ev.statInput, Ev.rmTempCleanup]⟩
      else if moveRaises then
        ⟨true, false, false, false, evs0 ++ [Ev.statInput, Ev.statTemp, Ev.rmTempCleanup]⟩
      else
        ⟨false, false, true, true,
         evs0 ++ [Ev.statInput, Ev.statTemp, Ev.moveTemp, Ev.rmInput]⟩
  else
    ⟨true, true, false, false, []⟩

/-- Check of the move-before-delete ordering on an event trace: every
deletion of the input file must be preceded by a completed move. -/
def delete_after_move : Bool → List Ev → Bool
  | _, [] => true
  | _, Ev.moveTemp :: es => delete_after_move true es
  | moved, Ev.rmInput :: es => moved && delete_after_move moved es
  | moved, _ :: es => delete_after_move moved es

/-- Text chunk of a natural-sort key, encoded for the lexicographic product
order: the second component 0 marks a text chunk. -/
def strChunk (s : List Char) : Lex (List Char × Nat) := toLex (s, 0)

/-- Numeric chunk of a natural-sort key: encoded as an empty text with the
value shifted by one, so that a numeric chunk sorts after an empty text
chunk and before any nonempty text chunk — exactly the tuple semantics of
the `natsort` key, which pads a leading numeric run with an empty string. -/
def numChunk (n : Nat) : Lex (List Char × Nat) := toLex ([], n + 1)

/-- Value of a run of decimal digits (so leading zeros are insignificant,
as in `natsort`'s integer parsing). -/
def digitsToNat (cs : List Char) : Nat :=
  cs.foldl (fun n c => n * 10 + (c.toNat - '0'.toNat)) 0

/-- Tokenizer of the natural-sort key: split the characters into maximal runs
of digits and non-digits; `acc` holds the current run reversed. -/
def tokAux : Bool → List Char → List Char → List (Lex (List Char × Nat))
  | isNum, acc, [] =>
      [if isNum then numChunk (digitsToNat acc.reverse) else strChunk acc.reverse]
  | isNum, acc, c :: cs =>
      if c.isDigit == isNum then tokAux isNum (c :: acc) cs
      else (if isNum then numChunk (digitsToNat acc.reverse) else strChunk acc.reverse)
            :: tokAux c.isDigit [c] cs

/-- Natural-sort key of a filename, modelling the default `natsort` key:
alternating text and integer chunks, with an empty text chunk prepended when
the name starts with a digit. -/
def natKey (s : String) : List (Lex (List Char × Nat)) :=
  match s.data with
  | [] => []
  | c :: cs => if c.isDigit then strChunk [] :: tokAux true [c] cs else tokAux false [c] cs

/-- Natural (human) order on filenames: comparison of natural-sort keys. -/
def keyLE (a b : String) : Prop := natKey a ≤ natKey b

instance : DecidableRel keyLE := fun a b => inferInstanceAs (Decidable (natKey a ≤ natKey b))

instance : IsTotal String keyLE := ⟨fun a b => le_total (natKey a) (natKey b)⟩

instance : IsTrans String keyLE := ⟨fun _ _ _ h1 h2 => le_trans h1 h2⟩

/-- Model of the `natsorted` library call of source line 304: a stable sort
by the natural-sort key. -/
def natsorted (l : List String) : List String := List.insertionSort keyLE l

/-- Source line 276: the case-sensitive ignore list. -/
def words_to_ignore : List String := ["sample", "SAMPLE", "Sample", ".DS_Store"]

/-- Source line 277: the recognized video container extensions. -/
def video_formats : List String := [".mkv", ".mp4", ".avi"]

/-- Filter guard of the discovery comprehension, source line 305:
`any(f.endswith(ext) for ext in video_formats) and not any(w in f for w in words_to_ignore)`. -/
def passesFilter (f : String) : Bool :=
  video_formats.any (fun ext => pyEndsWith f ext)
    && !(words_to_ignore.any (fun w => containsSubstr w f))

/-- Source lines 302-306: the discovery step of `process_folder` — natural
sort of the directory listing, then the extension/ignore filter. -/
def files_to_process (listing : List String) : List String :=
  (natsorted listing).filter passesFilter

/-! ## Helper lemmas -/

lemma gEAI_filter_map (l : List StreamRec) :
    get_english_audio_indices l
      = (l.filter audioQualifies).map (fun s => toString s.index) := by
  induction l with
  | nil => rfl
  | cons s rest ih =>
      by_cases h : audioQualifies s
      · simp [get_english_audio_indices, List.filter_cons, h, ih]
      · simp [get_english_audio_indices, List.filter_cons, h, ih]

lemma gss_filter_map (l : List StreamRec) :
    get_subtitle_streams l = (l.filter subQualifies).map mkSubRec := by
  induction l with
  | nil => rfl
  | cons s rest ih =>
      by_cases h : subQualifies s
      · simp [get_subtitle_streams, List.filter_cons, h, ih]
      · simp [get_subtitle_streams, List.filter_cons, h, ih]

lemma gvc_find (l : List StreamRec) :
    get_video_codec l
      = (l.find? (fun s => s.codec_type == some "video")).map
          (fun s => strLower (s.codec_name.getD "")) := by
  induction l with
  | nil => rfl
  | cons s rest ih =>
      by_cases h : s.codec_type == some "video"
      · simp [get_video_codec, List.find?_cons, h]
      · simp only [get_video_codec, List.find?_cons, h] at ih ⊢
        simpa [Bool.not_eq_true] using ih

lemma mem_audio_map_args {x : String} {ai : List String}
    (hx : x ∈ audio_map_args ai) :
    x = "-map" ∨ x = "-metadata:s:a:0" ∨ x = "language=eng" ∨ ∃ p, x = "0:" ++ p := by
  induction ai with
  | nil => simp [audio_map_args] at hx
  | cons i rest ih =>
      simp only [audio_map_args, List.mem_cons] at hx
      rcases hx with rfl | rfl | rfl | rfl | hx
      · exact Or.inl rfl
      · exact Or.inr (Or.inr (Or.inr ⟨i, rfl⟩))
      · exact Or.inr (Or.inl rfl)
      · exact Or.inr (Or.inr (Or.inl rfl))
      · exact ih hx

lemma count_audio_map_args (ai : List String) :
    (audio_map_args ai).count "-metadata:s:a:0" = ai.length := by
  induction ai with
  | nil => rfl
  | cons i rest ih =>
      have hz : ¬ (("0:" ++ i) = "-metadata:s:a:0") := by
        intro he
        have : ("0:" ++ i).data.head? = some '0' := rfl
        rw [he] at this
        exact absurd this (by decide)
      simp [audio_map_args, List.count_cons, ih, hz]

lemma map_sublist_audio_map_args (ai : List String) :
    (ai.map (fun i => "0:" ++ i)).Sublist (audio_map_args ai) := by
  induction ai with
  | nil => simp [audio_map_args]
  | cons i rest ih =>
      simp only [List.map_cons, audio_map_args]
      exact List.Sublist.cons _ (List.Sublist.cons₂ _ (List.Sublist.cons _ (List.Sublist.cons _ ih)))

lemma ne_append_of_not_pre (a b t : String)
    (h : a.data.isPrefixOf t.data = false) : t ≠ a ++ b := by
  intro he
  have hp : a.data.isPrefixOf (a ++ b).data = true :=
    List.isPrefixOf_iff_prefix.mpr ⟨b.data, rfl⟩
  rw [← he] at hp
  rw [h] at hp
  exact Bool.false_ne_true hp

/-- Every fixed token that can occur in a mode template, either mode. -/
def base_fixed_tokens : List String :=
  ["ffmpeg", "-i", "-y", "-c:v", "libx265", "-x265-params", "log-level=0", "-preset",
   "fast", "-crf", "23", "-c:a", "aac", "-b:a", "192k", "-channel_layout", "5.1",
   "-map", "0:v:0", "-map_metadata", "-1", "-tag:v", "hvc1", "-movflags",
   "+faststart", "-loglevel", "quiet", "copy"]

/-- Fixed tokens that can occur in the remux mode template. -/
def remux_fixed_tokens : List String :=
  ["ffmpeg", "-i", "-y", "-c:v", "copy", "-c:a", "-map", "0:v:0", "-map_metadata",
   "-1", "-movflags", "+faststart", "-loglevel", "quiet", "-tag:v", "hvc1"]

lemma base_cmd_subset (I : String) (m : Mode) (vc : Option String) :
    base_cmd I m vc ⊆ I :: base_fixed_tokens := by
  cases m with
  | encode =>
      show ["ffmpeg", "-i"] ++ I :: _ ⊆ _
      refine List.append_subset.mpr ⟨?_, ?_⟩
      · exact List.Subset.trans (by decide) (List.subset_cons_self _ _)
      · exact List.cons_subset_cons I
          (List.Subset.trans (by decide) (List.subset_cons_self _ _))
  | remux =>
      by_cases h : vc == some "hevc"
      all_goals
        simp only [base_cmd, h, if_true, if_false, Bool.false_eq_true]
      · show (["ffmpeg", "-i"] ++ I :: _) ++ _ ⊆ _
        refine List.append_subset.mpr ⟨List.append_subset.mpr ⟨?_, ?_⟩, ?_⟩
        · exact List.Subset.trans (by decide) (List.subset_cons_self _ _)
        · exact List.cons_subset_cons I
            (List.Subset.trans (by decide) (List.subset_cons_self _ _))
        · exact List.Subset.trans (by decide) (List.subset_cons_self _ _)
      · show ["ffmpeg", "-i"] ++ I :: _ ⊆ _
        refine List.append_subset.mpr ⟨?_, ?_⟩
        · exact List.Subset.trans (by decide) (List.subset_cons_self _ _)
        · exact List.cons_subset_cons I
            (List.Subset.trans (by decide) (List.subset_cons_self _ _))

lemma base_cmd_remux_subset (I : String) (vc : Option String) :
    base_cmd I Mode.remux vc ⊆ I :: remux_fixed_tokens := by
  by_cases h : vc == some "hevc"
  all_goals
    simp only [base_cmd, h, if_true, if_false, Bool.false_eq_true]
  · show (["ffmpeg", "-i"] ++ I :: _) ++ _ ⊆ _
    refine List.append_subset.mpr ⟨List.append_subset.mpr ⟨?_, ?_⟩, ?_⟩
    · exact List.Subset.trans (by decide) (List.subset_cons_self _ _)
    · exact List.cons_subset_cons I
        (List.Subset.trans (by decide) (List.subset_cons_self _ _))
    · exact List.Subset.trans (by decide) (List.subset_cons_self _ _)
  · show ["ffmpeg", "-i"] ++ I :: _ ⊆ _
    refine List.append_subset.mpr ⟨?_, ?_⟩
    · exact List.Subset.trans (by decide) (List.subset_cons_self _ _)
    · exact List.cons_subset_cons I
        (List.Subset.trans (by decide) (List.subset_cons_self _ _))

lemma mem_subtitle_args {x : String} {subs : List SubRec}
    (hx : x ∈ subtitle_args subs) :
    x = "-map" ∨ x = "-c:s" ∨ x = "mov_text" ∨ x = "-metadata:s:s:0"
      ∨ (∃ p, x = "0:" ++ p) ∨ (∃ p, x = "language=" ++ p) := by
  cases subs with
  | nil => simp [subtitle_args] at hx
  | cons sub rest =>
      simp only [subtitle_args, List.mem_cons, List.mem_singleton] at hx
      rcases hx with rfl | rfl | rfl | rfl | rfl | hx
      · exact Or.inl rfl
      · exact Or.inr (Or.inr (Or.inr (Or.inr (Or.inl ⟨sub.index, rfl⟩))))
      · exact Or.inr (Or.inl rfl)
      · exact Or.inr (Or.inr (Or.inl rfl))
      · exact Or.inr (Or.inr (Or.inr (Or.inl rfl)))
      · simp at hx
        exact hx ▸ Or.inr (Or.inr (Or.inr (Or.inr (Or.inr ⟨sub.language, rfl⟩))))

lemma mem_build {x I T : String} {m : Mode} {vc : Option String}
    {ai : List String} {subs : List SubRec}
    (hx : x ∈ build_ffmpeg_cmd I T m vc ai subs) :
    x ∈ base_cmd I m vc ∨ x ∈ audio_map_args ai ∨ x ∈ subtitle_args subs ∨ x = T := by
  simp only [build_ffmpeg_cmd, List.append_assoc, List.mem_append,
    List.mem_singleton] at hx
  tauto

/-! ## Claims about the orchestrator iteration (C1, C2) -/

/-- C1: for every file iteration of the batch orchestrator the original input
file is deleted if and only if the move of the temporary output file to the
destination path has already completed successfully; the input file is never
removed before the move (checked on the event trace), and after a failed or
skipped conversion the input file still exists. Quantified over every
combination of external-call outcomes of the iteration. -/
theorem C1_move_ordering : ∀ cs c m si st mv : Bool,
    ((process_iteration cs c m si st mv).inputExists = false
        ↔ (process_iteration cs c m si st mv).moveCompleted = true)
    ∧ delete_after_move false (process_iteration cs c m si st mv).events = true
    ∧ (c = false → (process_iteration cs c m si st mv).inputExists = true) := by
  decide

theorem C1_move_ordering_witness :
    (process_iteration false false false false false false).inputExists = true :=
  (C1_move_ordering false false false false false false).2.2 rfl

/-- C2 counterexample: when the conversion runner reports failure (returns
`False`), the temporary output file still exists afterwards — the orchestrator
does not clean it up on this path, contradicting the claim that the temp file
does not exist before the next file is processed. -/
theorem C2_cleanup_counterexample :
    ¬ ((process_iteration false false false false false false).tempExists = false) := by
  decide

/-- C2 (amended): for every file whose conversion fails (the runner returns
`False`), the original input file still exists afterwards, but the temporary
output file also still exists: the orchestrator deletes the temp file only in
its exception handler, which a plain `False` return never reaches. -/
theorem C2_failed_conversion_state : ∀ cs m si st mv : Bool,
    (process_iteration cs false m si st mv).inputExists = true
    ∧ (process_iteration cs false m si st mv).tempExists = true := by
  decide

/-! ## Claims about the track selector (C3, C4) -/

/-- C3: for every probed set of audio streams, the selector returns exactly
the indices of streams whose effective language tag is `eng` or `und`, in
probe order and no others (the filter-map characterization), and the
conversion of a file reports the no-qualifying-audio failure exactly when
that list is empty. -/
theorem C3_audio_selection (audio video : List StreamRec) (mode : Mode) (e : Bool) :
    get_english_audio_indices audio
        = (audio.filter audioQualifies).map (fun s => toString s.index)
    ∧ (convert_decision mode audio video e = ConvertOutcome.noAudio
        ↔ audio.filter audioQualifies = []) := by
  refine ⟨gEAI_filter_map audio, ?_⟩
  cases he : (get_english_audio_indices audio).isEmpty with
  | true =>
      have hnil : get_english_audio_indices audio = [] := List.isEmpty_iff.mp he
      have h0 : audio.filter audioQualifies = [] := by
        have h1 := gEAI_filter_map audio
        rw [hnil] at h1
        exact List.map_eq_nil_iff.mp h1.symm
      simp [convert_decision, he, h0]
  | false =>
      have hne : ¬ audio.filter audioQualifies = [] := by
        intro hh
        have h1 := gEAI_filter_map audio
        rw [hh] at h1
        simp only [List.map_nil] at h1
        rw [h1] at he
        exact absurd he (by decide)
      simp only [convert_decision, he, Bool.false_eq_true, if_false]
      split
      · simp [hne]
      · split
        · simp [hne]
        · simp [hne]

/-- C4: conversion is rejected with the unsupported-remux-codec outcome
exactly when the mode is remux, the detected video codec is `av1` and the
audio check before it passed; moreover whenever the mode is remux and the
codec is `av1`, the conversion never reaches the engine (the outcome is
neither success nor an engine failure), so the file is always skipped. -/
theorem C4_av1_remux_policy (mode : Mode) (audio video : List StreamRec) (e : Bool) :
    (convert_decision mode audio video e = ConvertOutcome.av1Remux
       ↔ get_english_audio_indices audio ≠ []
          ∧ mode = Mode.remux ∧ get_video_codec video = some "av1")
    ∧ (mode = Mode.remux → get_video_codec video = some "av1" →
        convert_decision mode audio video e ≠ ConvertOutcome.success
        ∧ convert_decision mode audio video e ≠ ConvertOutcome.engineFail) := by
  cases he : (get_english_audio_indices audio).isEmpty with
  | true =>
      have hnil : get_english_audio_indices audio = [] := List.isEmpty_iff.mp he
      constructor
      · simp [convert_decision, he, hnil]
      · intro h1 h2
        simp [convert_decision, he]
  | false =>
      have hne : get_english_audio_indices audio ≠ [] := by
        intro hh
        rw [hh] at he
        exact absurd he (by decide)
      by_cases hav : mode = Mode.remux ∧ get_video_codec video = some "av1"
      · constructor
        · simp [convert_decision, he, hav, hne]
        · intro _ _
          simp [convert_decision, he, hav]
      · have hd : convert_decision mode audio video e
            = (if e then ConvertOutcome.success else ConvertOutcome.engineFail) := by
          simp [convert_decision, he, hav]
        constructor
        · rw [hd]
          cases e <;> simp [hav]
        · intro h1 h2
          exact absurd ⟨h1, h2⟩ hav

/-- Sample audio stream list with one qualifying track, used by witnesses. -/
def sampleEngAudio : List StreamRec :=
  [⟨1, some "audio", some "ac3", some ⟨some "eng", none⟩⟩]

/-- Sample video stream list whose first video stream is AV1. -/
def sampleAv1Video : List StreamRec :=
  [⟨0, some "video", some "av1", none⟩]

theorem C4_av1_remux_policy_witness :
    convert_decision Mode.remux sampleEngAudio sampleAv1Video true
        = ConvertOutcome.av1Remux
    ∧ convert_decision Mode.remux sampleEngAudio sampleAv1Video true
        ≠ ConvertOutcome.success :=
  ⟨(C4_av1_remux_policy Mode.remux sampleEngAudio sampleAv1Video true).1.mpr
      ⟨by decide, rfl, by decide⟩,
   ((C4_av1_remux_policy Mode.remux sampleEngAudio sampleAv1Video true).2 rfl
      (by decide)).1⟩

/-! ## Claims about the command builder (C5, C6, C7) -/

/-- The fixed encode profile of source lines 205-211: x265 constant-quality
settings, AAC audio profile, metadata stripping, fast-start flag and the
compatibility tag, exactly as they appear contiguously in the template. -/
def encode_profile_flags : List String :=
  ["-c:v", "libx265", "-x265-params", "log-level=0", "-preset", "fast", "-crf", "23",
   "-c:a", "aac", "-b:a", "192k", "-channel_layout", "5.1",
   "-map", "0:v:0", "-map_metadata", "-1",
   "-tag:v", "hvc1", "-movflags", "+faststart", "-loglevel", "quiet"]

/-- The re-encode flags and values of the encode profile that select or
parameterize a video/audio re-encode. -/
def reencode_flags : List String :=
  ["libx265", "-x265-params", "-preset", "-crf", "aac", "-b:a", "-channel_layout"]

/-- C5: in encode mode the built command always contains the whole fixed
encode profile, for every source codec; in remux mode it always contains the
video and audio stream-copy flags, and (whenever the in/out paths are not
themselves named like flags) it contains none of the re-encode flags. -/
theorem C5_mode_templates (I T : String) (vc : Option String) (ai : List String)
    (subs : List SubRec) :
    encode_profile_flags <:+: build_ffmpeg_cmd I T Mode.encode vc ai subs
    ∧ ["-c:v", "copy", "-c:a", "copy"] <:+: build_ffmpeg_cmd I T Mode.remux vc ai subs
    ∧ (I ∉ reencode_flags → T ∉ reencode_flags →
        ∀ f ∈ reencode_flags, f ∉ build_ffmpeg_cmd I T Mode.remux vc ai subs) := by
  refine ⟨?_, ?_, ?_⟩
  · exact ⟨["ffmpeg", "-i", I, "-y"],
      audio_map_args ai ++ subtitle_args subs ++ [T],
      by simp [build_ffmpeg_cmd, base_cmd, encode_profile_flags]⟩
  · cases hv : (vc == some "hevc") with
    | true =>
        exact ⟨["ffmpeg", "-i", I, "-y"],
          ["-map", "0:v:0", "-map_metadata", "-1", "-movflags", "+faststart",
           "-loglevel", "quiet", "-tag:v", "hvc1"]
            ++ audio_map_args ai ++ subtitle_args subs ++ [T],
          by simp [build_ffmpeg_cmd, base_cmd, hv]⟩
    | false =>
        exact ⟨["ffmpeg", "-i", I, "-y"],
          ["-map", "0:v:0", "-map_metadata", "-1", "-movflags", "+faststart",
           "-loglevel", "quiet"]
            ++ audio_map_args ai ++ subtitle_args subs ++ [T],
          by simp [build_ffmpeg_cmd, base_cmd, hv]⟩
  · intro hI hT f hf hmem
    have d1 : ∀ g ∈ reencode_flags, g ∉ remux_fixed_tokens := by decide
    have d2 : ∀ g ∈ reencode_flags,
        g ≠ "-map" ∧ g ≠ "-metadata:s:a:0" ∧ g ≠ "language=eng"
          ∧ g ≠ "-c:s" ∧ g ≠ "mov_text" ∧ g ≠ "-metadata:s:s:0" := by decide
    have d3 : ∀ g ∈ reencode_flags,
        "0:".data.isPrefixOf g.data = false
          ∧ "language=".data.isPrefixOf g.data = false := by decide
    rcases mem_build hmem with hb | ha | hs | rfl
    · rcases List.mem_cons.mp (base_cmd_remux_subset I vc hb) with rfl | hfix
      · exact hI hf
      · exact d1 f hf hfix
    · rcases mem_audio_map_args ha with rfl | rfl | rfl | ⟨p, rfl⟩
      · exact (d2 _ hf).1 rfl
      · exact (d2 _ hf).2.1 rfl
      · exact (d2 _ hf).2.2.1 rfl
      · exact ne_append_of_not_pre "0:" p _ (d3 _ hf).1 rfl
    · rcases mem_subtitle_args hs with rfl | rfl | rfl | rfl | ⟨p, rfl⟩ | ⟨p, rfl⟩
      · exact (d2 _ hf).1 rfl
      · exact (d2 _ hf).2.2.2.1 rfl
      · exact (d2 _ hf).2.2.2.2.1 rfl
      · exact (d2 _ hf).2.2.2.2.2 rfl
      · exact ne_append_of_not_pre "0:" p _ (d3 _ hf).1 rfl
      · exact ne_append_of_not_pre "language=" p _ (d3 _ hf).2 rfl
    · exact hT hf

theorem C5_mode_templates_witness :
    ("-crf" ∉ build_ffmpeg_cmd "movie.mkv" "tmp.mp4" Mode.remux (some "h264") ["1"] [])
    ∧ ["-c:v", "copy", "-c:a", "copy"]
        <:+: build_ffmpeg_cmd "movie.mkv" "tmp.mp4" Mode.remux (some "h264") ["1"] [] :=
  ⟨(C5_mode_templates "movie.mkv" "tmp.mp4" (some "h264") ["1"] []).2.2
      (by decide) (by decide) "-crf" (by decide),
   (C5_mode_templates "movie.mkv" "tmp.mp4" (some "h264") ["1"] []).2.1⟩

/-- C6: the subtitle selector returns exactly the qualifying streams in probe
order (filter-map characterization); the built command depends only on the
first of them (so at most one subtitle is ever mapped); when no stream
qualifies, no subtitle conversion argument is emitted; and when some stream
qualifies, the emitted subtitle block is exactly the one of the first
qualifying stream in probe order. -/
theorem C6_single_subtitle (I T : String) (m : Mode) (vc : Option String)
    (ai : List String) (st : List StreamRec) :
    get_subtitle_streams st = (st.filter subQualifies).map mkSubRec
    ∧ build_ffmpeg_cmd I T m vc ai (get_subtitle_streams st)
        = build_ffmpeg_cmd I T m vc ai ((get_subtitle_streams st).take 1)
    ∧ (st.filter subQualifies = [] → I ≠ "-c:s" → T ≠ "-c:s" →
        "-c:s" ∉ build_ffmpeg_cmd I T m vc ai (get_subtitle_streams st))
    ∧ (∀ s rest, st.filter subQualifies = s :: rest →
        ["-map", "0:" ++ toString s.index, "-c:s", "mov_text", "-metadata:s:s:0",
         "language=" ++ effLang s]
          <:+: build_ffmpeg_cmd I T m vc ai (get_subtitle_streams st)) := by
  refine ⟨gss_filter_map st, ?_, ?_, ?_⟩
  · cases h : get_subtitle_streams st with
    | nil => rfl
    | cons s rest => simp [build_ffmpeg_cmd, subtitle_args]
  · intro hfil hI hT hmem
    have hnil : get_subtitle_streams st = [] := by
      rw [gss_filter_map st, hfil]
      rfl
    rw [hnil] at hmem
    rcases mem_build hmem with hb | ha | hs | he
    · rcases List.mem_cons.mp (base_cmd_subset I m vc hb) with he | hfix
      · exact hI he.symm
      · exact absurd hfix (by decide)
    · rcases mem_audio_map_args ha with he | he | he | ⟨p, he⟩
      · exact absurd he (by decide)
      · exact absurd he (by decide)
      · exact absurd he (by decide)
      · exact ne_append_of_not_pre "0:" p _ (by decide) he
    · simp [subtitle_args] at hs
    · exact hT he.symm
  · intro s rest hfil
    have hgss : get_subtitle_streams st = mkSubRec s :: rest.map mkSubRec := by
      rw [gss_filter_map st, hfil, List.map_cons]
    refine ⟨base_cmd I m vc ++ audio_map_args ai, [T], ?_⟩
    have hargs : subtitle_args (get_subtitle_streams st)
        = ["-map", "0:" ++ toString s.index, "-c:s", "mov_text", "-metadata:s:s:0",
           "language=" ++ effLang s] := by
      rw [hgss]
      rfl
    simp [build_ffmpeg_cmd, hargs]

/-- Sample subtitle stream list with two qualifying entries, indices 3 and 4. -/
def sampleSubs : List StreamRec :=
  [⟨3, some "subtitle", some "subrip", some ⟨some "eng", none⟩⟩,
   ⟨4, some "subtitle", some "ass", some ⟨some "eng", none⟩⟩]

theorem C6_single_subtitle_witness :
    ["-map", "0:" ++ toString (3 : Nat), "-c:s", "mov_text", "-metadata:s:s:0",
     "language=" ++ effLang ⟨3, some "subtitle", some "subrip", some ⟨some "eng", none⟩⟩]
      <:+: build_ffmpeg_cmd "a.mkv" "b.mp4" Mode.remux none ["1"]
            (get_subtitle_streams sampleSubs) :=
  (C6_single_subtitle "a.mkv" "b.mp4" Mode.remux none ["1"] sampleSubs).2.2.2
    ⟨3, some "subtitle", some "subrip", some ⟨some "eng", none⟩⟩
    [⟨4, some "subtitle", some "ass", some ⟨some "eng", none⟩⟩] (by decide)

/-- C7: for every non-empty selected audio index list, the builder maps the
indices in their given order (the mapped stream specifiers appear as a
subsequence, and the whole audio block as a contiguous segment), and after
each map it emits the same metadata option `-metadata:s:a:0` — exactly one
occurrence per selected index — while the per-output-position key
`-metadata:s:a:1` never occurs, in either mode. -/
theorem C7_audio_metadata (I T : String) (m : Mode) (vc : Option String)
    (ai : List String) (subs : List SubRec)
    (_h0 : ai ≠ [])
    (h1 : I ≠ "-metadata:s:a:0") (h2 : T ≠ "-metadata:s:a:0")
    (h3 : I ≠ "-metadata:s:a:1") (h4 : T ≠ "-metadata:s:a:1") :
    audio_map_args ai <:+: build_ffmpeg_cmd I T m vc ai subs
    ∧ (ai.map (fun i => "0:" ++ i)).Sublist (build_ffmpeg_cmd I T m vc ai subs)
    ∧ (build_ffmpeg_cmd I T m vc ai subs).count "-metadata:s:a:0" = ai.length
    ∧ "-metadata:s:a:1" ∉ build_ffmpeg_cmd I T m vc ai subs := by
  have hinf : audio_map_args ai <:+: build_ffmpeg_cmd I T m vc ai subs :=
    ⟨base_cmd I m vc, subtitle_args subs ++ [T], by simp [build_ffmpeg_cmd]⟩
  refine ⟨hinf, ?_, ?_, ?_⟩
  · exact List.Sublist.trans (map_sublist_audio_map_args ai)
      ( List.IsInfix.sublist hinf)
  · have hbase : (base_cmd I m vc).count "-metadata:s:a:0" = 0 := by
      rw [List.count_eq_zero]
      intro hmem
      rcases List.mem_cons.mp (base_cmd_subset I m vc hmem) with he | hfix
      · exact h1 he.symm
      · exact absurd hfix (by decide)
    have hsub : (subtitle_args subs).count "-metadata:s:a:0" = 0 := by
      rw [List.count_eq_zero]
      intro hmem
      rcases mem_subtitle_args hmem with he | he | he | he | ⟨p, he⟩ | ⟨p, he⟩
      · exact absurd he (by decide)
      · exact absurd he (by decide)
      · exact absurd he (by decide)
      · exact absurd he (by decide)
      · exact ne_append_of_not_pre "0:" p _ (by decide) he
      · exact ne_append_of_not_pre "language=" p _ (by decide) he
    have hTc : ([T].count "-metadata:s:a:0") = 0 := by
      rw [List.count_eq_zero]
      intro hmem
      rcases List.mem_singleton.mp hmem with he
      exact h2 he.symm
    simp [build_ffmpeg_cmd, List.count_append, hbase, hsub, hTc,
      count_audio_map_args]
  · intro hmem
    rcases mem_build hmem with hb | ha | hs | he
    · rcases List.mem_cons.mp (base_cmd_subset I m vc hb) with he | hfix
      · exact h3 he.symm
      · exact absurd hfix (by decide)
    · rcases mem_audio_map_args ha with he | he | he | ⟨p, he⟩
      · exact absurd he (by decide)
      · exact absurd he (by decide)
      · exact absurd he (by decide)
      · exact ne_append_of_not_pre "0:" p _ (by decide) he
    · rcases mem_subtitle_args hs with he | he | he | he | ⟨p, he⟩ | ⟨p, he⟩
      · exact absurd he (by decide)
      · exact absurd he (by decide)
      · exact absurd he (by decide)
      · exact absurd he (by decide)
      · exact ne_append_of_not_pre "0:" p _ (by decide) he
      · exact ne_append_of_not_pre "language=" p _ (by decide) he
    · exact h4 he.symm

theorem C7_audio_metadata_witness :
    (build_ffmpeg_cmd "a.mkv" "b.mp4" Mode.encode none ["1", "2"] []).count
        "-metadata:s:a:0" = 2
    ∧ "-metadata:s:a:1" ∉ build_ffmpeg_cmd "a.mkv" "b.mp4" Mode.encode none ["1", "2"] [] :=
  ⟨(C7_audio_metadata "a.mkv" "b.mp4" Mode.encode none ["1", "2"] []
      (by decide) (by decide) (by decide) (by decide) (by decide)).2.2.1,
   (C7_audio_metadata "a.mkv" "b.mp4" Mode.encode none ["1", "2"] []
      (by decide) (by decide) (by decide) (by decide) (by decide)).2.2.2⟩

/-! ## Claims about discovery (C8) and probe-record defaults (C9, C10) -/

/-- C8: the discovery step processes exactly the files of the listing that
pass the extension/ignore filter (permutation and membership
characterization), in natural (human numeric) order of filename — the
resulting list is sorted by the natural-sort key. The substring and suffix
models used by the filter are characterized against list containment, and
the concrete scenario shows `Episode 2.mkv` processed before
`Episode 10.mkv` even though their ASCII order is the reverse. -/
theorem C8_discovery (listing : List String) :
    (files_to_process listing).Perm (listing.filter passesFilter)
    ∧ List.Sorted keyLE (files_to_process listing)
    ∧ (∀ f, f ∈ files_to_process listing ↔ f ∈ listing ∧ passesFilter f = true)
    ∧ (∀ w f, containsSubstr w f = true ↔ w.data <:+: f.data)
    ∧ (∀ f ext, pyEndsWith f ext = true ↔ ext.data <:+ f.data)
    ∧ files_to_process ["Episode 10.mkv", "Episode 2.mkv"]
        = ["Episode 2.mkv", "Episode 10.mkv"]
    ∧ "Episode 10.mkv".data < "Episode 2.mkv".data := by
  refine ⟨?_, ?_, ?_, ?_, ?_, by decide, by decide⟩
  · exact (List.perm_insertionSort keyLE listing).filter passesFilter
  · exact List.Pairwise.sublist (List.filter_sublist _)
      (List.sorted_insertionSort keyLE listing)
  · intro f
    rw [files_to_process, List.mem_filter]
    exact and_congr_left fun _ => (List.perm_insertionSort keyLE listing).mem_iff
  · intro w f
    constructor
    · intro h
      rcases List.any_eq_true.mp h with ⟨i, hi, hp⟩
      rcases List.isPrefixOf_iff_prefix.mp hp with ⟨t, ht⟩
      exact ⟨f.data.take i, t, by rw [List.append_assoc, ht, List.take_append_drop]⟩
    · intro h
      rcases h with ⟨s, t, hst⟩
      refine List.any_eq_true.mpr ⟨s.length, ?_, ?_⟩
      · rw [List.mem_range]
        have := congrArg List.length hst
        simp only [List.length_append] at this
        omega
      · refine List.isPrefixOf_iff_prefix.mpr ⟨t, ?_⟩
        rw [← hst, List.append_assoc, List.drop_left]
  · intro f ext
    exact List.isSuffixOf_iff_suffix

/-- C9: a stream record that lacks a tags mapping, or whose tags lack a
language entry, is treated as language `und`: it qualifies as audio, and it
qualifies as a subtitle whenever its codec is in the allow-list. -/
theorem C9_missing_tags_default (s : StreamRec) (rest : List StreamRec)
    (h : s.tags = none ∨ ∃ t, s.tags = some t ∧ t.language = none) :
    effLang s = "und"
    ∧ get_english_audio_indices (s :: rest)
        = toString s.index :: get_english_audio_indices rest
    ∧ (subCodecOk s = true →
        get_subtitle_streams (s :: rest) = mkSubRec s :: get_subtitle_streams rest) := by
  have hund : effLang s = "und" := by
    rcases h with h | ⟨t, ht, hl⟩
    · simp [effLang, h]
    · simp [effLang, ht, hl]
  have haud : audioQualifies s = true := by
    simp [audioQualifies, hund]
  refine ⟨hund, ?_, ?_⟩
  · simp [get_english_audio_indices, haud]
  · intro hc
    have hq : subQualifies s = true := by
      simp [subQualifies, hc, hund]
    simp [get_subtitle_streams, hq]

/-- Sample stream record with no tags mapping and an allow-listed codec. -/
def sampleNoTags : StreamRec := ⟨3, some "audio", some "subrip", none⟩

theorem C9_missing_tags_default_witness :
    effLang sampleNoTags = "und"
    ∧ get_english_audio_indices [sampleNoTags] = [toString sampleNoTags.index]
    ∧ get_subtitle_streams [sampleNoTags] = [mkSubRec sampleNoTags] := by
  have h := C9_missing_tags_default sampleNoTags [] (Or.inl rfl)
  exact ⟨h.1, h.2.1, h.2.2 (by decide)⟩

/-- C10: the detected video codec is the lower-cased codec name of the first
stream whose type is `video` (find-map characterization), it is `none` when
no video stream exists, and the lower-casing makes the remux AV1 rejection
and the remux HEVC compatibility tag apply regardless of the letter case the
probe reports. -/
theorem C10_video_codec_detection :
    (∀ streams : List StreamRec,
        get_video_codec streams
          = (streams.find? (fun s => s.codec_type == some "video")).map
              (fun s => strLower (s.codec_name.getD "")))
    ∧ (∀ streams : List StreamRec,
        (∀ s ∈ streams, ¬ s.codec_type = some "video") → get_video_codec streams = none)
    ∧ (∀ (idx : Nat) (tags : Option TagsRec) (cn : String)
        (rest audio : List StreamRec) (e : Bool),
        strLower cn = "av1" → get_english_audio_indices audio ≠ [] →
        convert_decision Mode.remux audio (⟨idx, some "video", some cn, tags⟩ :: rest) e
          = ConvertOutcome.av1Remux)
    ∧ (∀ (idx : Nat) (tags : Option TagsRec) (cn : String) (rest : List StreamRec)
        (I T : String) (ai : List String) (subs : List SubRec),
        strLower cn = "hevc" →
        ["-tag:v", "hvc1"] <:+: build_ffmpeg_cmd I T Mode.remux
            (get_video_codec (⟨idx, some "video", some cn, tags⟩ :: rest)) ai subs) := by
  refine ⟨gvc_find, ?_, ?_, ?_⟩
  · intro streams h
    rw [gvc_find]
    have hn : streams.find? (fun s => s.codec_type == some "video") = none :=
      List.find?_eq_none.mpr (fun x hx => by
        simpa using h x hx)
    rw [hn]
    rfl
  · intro idx tags cn rest audio e hl hne
    have hgvc : get_video_codec (⟨idx, some "video", some cn, tags⟩ :: rest)
        = some "av1" := by
      simp [get_video_codec, hl]
    have hie : (get_english_audio_indices audio).isEmpty = false := by
      cases hh : (get_english_audio_indices audio).isEmpty with
      | true => exact absurd (List.isEmpty_iff.mp hh) hne
      | false => rfl
    simp [convert_decision, hie, hgvc]
  · intro idx tags cn rest I T ai subs hl
    have hgvc : get_video_codec (⟨idx, some "video", some cn, tags⟩ :: rest)
        = some "hevc" := by
      simp [get_video_codec, hl]
    rw [hgvc]
    refine ⟨["ffmpeg", "-i", I, "-y", "-c:v", "copy", "-c:a", "copy", "-map", "0:v:0",
      "-map_metadata", "-1", "-movflags", "+faststart", "-loglevel", "quiet"],
      audio_map_args ai ++ subtitle_args subs ++ [T], ?_⟩
    simp [build_ffmpeg_cmd, base_cmd]

theorem C10_video_codec_detection_witness :
    convert_decision Mode.remux sampleEngAudio
        [⟨0, some "video", some "AV1", none⟩] true = ConvertOutcome.av1Remux :=
  C10_video_codec_detection.2.2.1 0 none "AV1" [] sampleEngAudio true
    (by decide) (by decide)
